import Mathlib

/-!
# Twitch-Chat: chat ingestion and overlay pipeline

A shallow embedding of `src/twitch.js` (`TwitchClient`) and of the message store of
`src/main.js` (`store.addMessage`), followed by theorems about them.

Modelling conventions.

* A JavaScript string is the list of its UTF-16 code units (`Fin 65536`); `utf16` gives the
  code units of a literal, a character above U+FFFF being a pair of surrogates.
* `undefined` is `none`; a JavaScript number is `Option Int`, `none` standing for `NaN`
  (only integer values occur in the functions embedded here).
* A plain object is the list of its own properties in creation order, over the prototype
  `Object.prototype`: a read `o[k]` that finds no own property finds the member of
  `Object.prototype` named `k`, when there is one.
* `String.prototype.toLowerCase` is exact on strings of ASCII code units; on other strings
  it is the parameter `unicodeLower` (the case tables of Unicode are not in the
  repository).
* `try { ... } catch` is an `Except` computation whose error is mapped to `null` (`none`).
* `new Date()` is passed in as a parameter.
-/

namespace TwitchChat

/-! ## Strings -/

/-- A UTF-16 code unit. -/
abbrev CodeUnit := Fin 65536

/-- A JavaScript string: its sequence of UTF-16 code units. -/
abbrev Str := List CodeUnit

/-- The code unit of a character of the Basic Multilingual Plane. -/
def cu (c : Char) : CodeUnit := Fin.ofNat c.toNat

/-- The UTF-16 encoding of one character: itself, or a surrogate pair above U+FFFF. -/
def encodeChar (c : Char) : Str :=
  if c.toNat < 65536 then [Fin.ofNat c.toNat]
  else
    [Fin.ofNat (0xD800 + (c.toNat - 65536) / 1024), Fin.ofNat (0xDC00 + (c.toNat - 65536) % 1024)]

/-- The UTF-16 encoding of a list of characters. -/
def utf16Chars : List Char → Str
  | [] => []
  | c :: cs => encodeChar c ++ utf16Chars cs

/-- The JavaScript string written by a literal. -/
def utf16 (s : String) : Str := utf16Chars s.toList

/-- The code unit of the double quote. -/
def dquote : CodeUnit := Fin.ofNat 34

/-- The code unit of the single quote. -/
def squote : CodeUnit := Fin.ofNat 39

/-- Puts `c` in front of the first piece of a list of pieces. -/
def consHead (c : CodeUnit) : List Str → List Str
  | [] => [[c]]
  | p :: ps => (c :: p) :: ps

/-- Worker of `split` for a non-empty separator: `skip` is the number of code units of
a separator just recognised that are still to be dropped. The head of the result is
the piece being read. -/
def splitGo (sep : Str) : Nat → Str → List Str
  | _, [] => [[]]
  | skip + 1, _ :: cs => splitGo sep skip cs
  | 0, c :: cs =>
    if sep.isPrefixOf (c :: cs) then [] :: splitGo sep (sep.length - 1) cs
    else consHead c (splitGo sep 0 cs)

/-- `String.prototype.split(sep)`: the pieces of `s` between the successive leftmost
occurrences of `sep`; with the empty separator, the code units of `s`. -/
def split (s sep : Str) : List Str :=
  if sep.isEmpty then s.map (fun c => [c]) else splitGo sep 0 s

/-- `Array.prototype.join(sep)` on an array of strings. -/
def join (sep : Str) : List Str → Str
  | [] => []
  | [p] => p
  | p :: q :: ps => p ++ sep ++ join sep (q :: ps)

/-- `String.prototype.includes(w)`: `w` occurs in `s` as a contiguous substring. -/
def includes : Str → Str → Bool
  | [], w => w.isEmpty
  | c :: cs, w => w.isPrefixOf (c :: cs) || includes cs w

/-- `String.prototype.startsWith(w)`. -/
def startsWith (s w : Str) : Bool := w.isPrefixOf s

/-- Is `c` an ASCII code unit. -/
def isAscii (c : CodeUnit) : Bool := decide (c.val < 128)

/-- Lower-casing of an ASCII code unit: `A` .. `Z` become `a` .. `z`. -/
def asciiLower (c : CodeUnit) : CodeUnit :=
  if 65 ≤ c.val ∧ c.val ≤ 90 then Fin.ofNat (c.val + 32) else c

/-- `String.prototype.toLowerCase()`. On a string of ASCII code units it maps `A` .. `Z`
to `a` .. `z`. On a string with a code unit outside ASCII the result is `unicodeLower s`:
the lower-casing of the Unicode character database, whose tables are not part of the
repository, is a parameter of the model. -/
def toLowerCase (unicodeLower : Str → Str) (s : Str) : Str :=
  if s.all isAscii then s.map asciiLower else unicodeLower s

/-- The code units removed by `trim`: ECMAScript WhiteSpace and LineTerminator. -/
def isWhiteSpace (c : CodeUnit) : Bool :=
  [9, 10, 11, 12, 13, 32, 0xA0, 0x1680, 0x2028, 0x2029, 0x202F, 0x205F, 0x3000, 0xFEFF].contains
      c.val
    || (0x2000 ≤ c.val && c.val ≤ 0x200A)

/-- `String.prototype.trim()`. -/
def trim (s : Str) : Str :=
  ((s.dropWhile isWhiteSpace).reverse.dropWhile isWhiteSpace).reverse

/-- Truthiness of a value that is a string or `undefined`. -/
def truthy : Option Str → Bool
  | none => false
  | some s => !s.isEmpty

/-- The operator `a || b` on strings-or-undefined. -/
def orElse (a : Option Str) (b : Option Str) : Option Str :=
  if truthy a then a else b

/-! ## Numbers -/

/-- A JavaScript number with an integer value, or `NaN` (`none`). Values are kept exact
(no rounding of integers beyond `2^53`). -/
abbrev JSNum := Option Int

/-- Is `c` a decimal digit `0` .. `9`. -/
def isDecDigit (c : CodeUnit) : Bool := decide (48 ≤ c.val) && decide (c.val ≤ 57)

/-- Value of a decimal digit. -/
def digitVal (c : CodeUnit) : Nat := c.val - 48

/-- Value of a string of decimal digits. -/
def decimalValue (ds : Str) : Nat := ds.foldl (fun n c => 10 * n + digitVal c) 0

/-- Is `c` a hexadecimal digit. -/
def isHexDigit (c : CodeUnit) : Bool :=
  isDecDigit c || (decide (97 ≤ c.val) && decide (c.val ≤ 102))
    || (decide (65 ≤ c.val) && decide (c.val ≤ 70))

/-- Value of a hexadecimal digit. -/
def hexDigitVal (c : CodeUnit) : Nat :=
  if isDecDigit c then c.val - 48
  else if 97 ≤ c.val then c.val - 87
  else c.val - 55

/-- Unsigned part of `parseInt`: a `0x` or `0X` prefix selects radix 16, and the longest
prefix of digits is read; no digit at all gives `NaN`. -/
def parseIntUnsigned (s : Str) : Option Nat :=
  if s.take 2 = [cu '0', cu 'x'] ∨ s.take 2 = [cu '0', cu 'X'] then
    let ds := (s.drop 2).takeWhile isHexDigit
    if ds.isEmpty then none else some (ds.foldl (fun n c => 16 * n + hexDigitVal c) 0)
  else
    let ds := s.takeWhile isDecDigit
    if ds.isEmpty then none else some (decimalValue ds)

/-- The global `parseInt(s)` with no radix argument: leading white space is skipped and
a sign is read before the digits. -/
def parseInt (s : Str) : JSNum :=
  let t := s.dropWhile isWhiteSpace
  if t.head? = some (cu '-') then (parseIntUnsigned t.tail).map (fun n => - Int.ofNat n)
  else if t.head? = some (cu '+') then (parseIntUnsigned t.tail).map Int.ofNat
  else (parseIntUnsigned t).map Int.ofNat

/-- The conversion `Number(s)` on integer literals: surrounding white space is ignored,
the empty string is 0, an optionally signed string of decimal digits has its value.
Every other string reads as `NaN` here (literals with a fraction, an exponent or a radix
prefix and `Infinity` are not modelled). -/
def toNumber (s : Str) : JSNum :=
  let t := trim s
  if t.isEmpty then some 0
  else if t.head? = some (cu '-') then
    if !t.tail.isEmpty && t.tail.all isDecDigit then some (- (decimalValue t.tail : Int)) else none
  else if t.head? = some (cu '+') then
    if !t.tail.isEmpty && t.tail.all isDecDigit then some (decimalValue t.tail : Int) else none
  else if t.all isDecDigit then some (decimalValue t : Int)
  else none

/-- The operator `a - b` on numbers. -/
def jsSub (a b : JSNum) : JSNum :=
  match a, b with
  | some x, some y => some (x - y)
  | _, _ => none

/-- An index argument of `substring`, clamped to `0 .. len` (`NaN` is 0). -/
def clampIndex (n : JSNum) (len : Nat) : Nat :=
  match n with
  | none => 0
  | some i => min i.toNat len

/-- `String.prototype.substring(a, b)`. -/
def substring (s : Str) (a b : JSNum) : Str :=
  let i := clampIndex a s.length
  let j := clampIndex b s.length
  (s.take (max i j)).drop (min i j)

/-- `String.prototype.substring(a)`. -/
def substringFrom (s : Str) (a : JSNum) : Str :=
  s.drop (clampIndex a s.length)

/-! ## Plain objects and arrays -/

/-- A plain object with string keys and primitive values: its own properties, in
creation order. Its prototype is `Object.prototype`. -/
abbrev JSObject (β : Type) := List (Str × β)

/-- The names of the members of `Object.prototype` in a browser: the members of the
standard and the legacy accessors of its Annex B. -/
def objectPrototypeKeys : List Str :=
  ["constructor", "hasOwnProperty", "isPrototypeOf", "propertyIsEnumerable", "toLocaleString",
    "toString", "valueOf", "__proto__", "__defineGetter__", "__defineSetter__",
    "__lookupGetter__", "__lookupSetter__"].map utf16

/-- Own-property lookup: the value of the own property `k` of `o`, if there is one. -/
def ownGet {β : Type} : JSObject β → Str → Option β
  | [], _ => none
  | (k', v) :: rest, k => if k' = k then some v else ownGet rest k

/-- What a read `o[k]` finds. -/
inductive Lookup (β : Type) where
  /-- The own property `k`, with its value. -/
  | own (v : β)
  /-- No own property: the member of `Object.prototype` named `k` (a function, or for
  `__proto__` the prototype object itself). -/
  | inherited
  /-- Nothing: the read gives `undefined`. -/
  | missing
  deriving DecidableEq

/-- The read `o[k]`: an own property first, then the members of `Object.prototype`. -/
def objRead {β : Type} (o : JSObject β) (k : Str) : Lookup β :=
  match ownGet o k with
  | some v => .own v
  | none => if objectPrototypeKeys.contains k then .inherited else .missing

/-- Own-property part of an assignment: an existing property keeps its place, a new one
is added last. -/
def ownSet {β : Type} : JSObject β → Str → β → JSObject β
  | [], k, v => [(k, v)]
  | (k', v') :: rest, k, v => if k' = k then (k, v) :: rest else (k', v') :: ownSet rest k v

/-- Assignment `o[k] = v` of a primitive value. The key `__proto__` reaches the setter
inherited from `Object.prototype`, which ignores a primitive value: no property is
created. Every other key sets an own property. -/
def objSet {β : Type} (o : JSObject β) (k : Str) (v : β) : JSObject β :=
  if k = utf16 "__proto__" then o else ownSet o k v

/-- Is `k` an array index: the canonical decimal form of an integer below `2^32 - 1`. -/
def isArrayIndex (k : Str) : Bool :=
  !k.isEmpty && k.all isDecDigit && (decide (k = [cu '0']) || decide (k.head? ≠ some (cu '0')))
    && decide (decimalValue k < 4294967295)

/-- `Object.keys(o)`: array-index keys in ascending numeric order, then the other keys
in creation order. -/
def objectKeys {β : Type} (o : JSObject β) : List Str :=
  let ks := o.map Prod.fst
  (ks.filter isArrayIndex).insertionSort (fun a b => decimalValue a ≤ decimalValue b)
    ++ ks.filter (fun k => !isArrayIndex k)

/-- Does a comparator result ask for a swap: it is a number greater than 0. -/
def cmpPositive : JSNum → Bool
  | some x => decide (0 < x)
  | none => false

/-- `Array.prototype.sort(cmp)`: a stable sort; `a` stays before `b` unless
`cmp(a, b) > 0`. (For a comparator that is not a consistent ordering the standard leaves
the order to the implementation; insertion order of a stable insertion sort is taken.) -/
def arraySort {α : Type} (cmp : α → α → JSNum) (l : List α) : List α :=
  l.insertionSort (fun a b => cmpPositive (cmp a b) = false)

/-! ## `TwitchClient` (src/twitch.js) -/

/-- The record returned by `parseIrc`. -/
structure ChatMessage where
  id : Option Str
  userId : Option Str
  username : Str
  color : Str
  text : Str
  emotes : JSObject Str
  time : Nat
  deriving DecidableEq

/-- An exception raised inside `parseIrc`. -/
inductive JSError where
  | typeError
  deriving DecidableEq

/-- The loop `tagPart.split(';').forEach(tag => ...)` of `parseIrc`:
`const [key, val] = tag.split('='); meta[key] = val`. -/
def parseTags (tagPart : Str) : JSObject (Option Str) :=
  (split tagPart (utf16 ";")).foldl
    (fun meta tag =>
      let pieces := split tag (utf16 "=")
      let key := pieces.headD (utf16 "undefined")
      let val := pieces[1]?
      objSet meta key val)
    []

/-- Read `meta[k]` for a key `k` that names no member of `Object.prototype` (as the five
keys read by `parseIrc`): the value is `undefined` when the property is missing or holds
`undefined`. -/
def metaGet (meta : JSObject (Option Str)) (k : Str) : Option Str :=
  (ownGet meta k).join

/-- The loop over the groups of the `emotes` tag:
`const [id, pos] = e.split(':'); pos.split(',').forEach(p => emotes[p] = id)`.
A group without `:` leaves `pos` undefined and `pos.split` raises a `TypeError`. -/
def decodeEmoteGroups : List Str → JSObject Str → Except JSError (JSObject Str)
  | [], emotes => .ok emotes
  | e :: es, emotes =>
    let pieces := split e (utf16 ":")
    let id := pieces.headD (utf16 "undefined")
    match pieces[1]? with
    | none => .error .typeError
    | some pos =>
      decodeEmoteGroups es ((split pos (utf16 ",")).foldl (fun em p => objSet em p id) emotes)

/-- The block `const emotes = {}; if (meta['emotes']) { ... }` of `parseIrc`. -/
def decodeEmotes (meta : JSObject (Option Str)) : Except JSError (JSObject Str) :=
  match metaGet meta (utf16 "emotes") with
  | none => .ok []
  | some v => if v.isEmpty then .ok [] else decodeEmoteGroups (split v (utf16 "/")) []

/-- The `try` block of `parseIrc`. -/
def parseIrcBody (raw : Str) (now : Nat) : Except JSError ChatMessage :=
  let parts := split raw (utf16 " :")
  let tagPart := parts.headD (utf16 "undefined")
  let msgPart := join (utf16 " :") (parts.drop 1)
  let meta := parseTags tagPart
  match decodeEmotes meta with
  | .error e => .error e
  | .ok emotes =>
    .ok
      { id := metaGet meta (utf16 "id")
        userId := metaGet meta (utf16 "user-id")
        username :=
          (orElse
            (orElse (metaGet meta (utf16 "display-name"))
              ((split ((split raw (utf16 "!")).headD (utf16 "undefined")) (utf16 ":"))[1]?))
            (some (utf16 "Unknown"))).getD (utf16 "Unknown")
        color :=
          (orElse (metaGet meta (utf16 "color")) (some (utf16 "#9147ff"))).getD (utf16 "#9147ff")
        text := trim msgPart
        emotes := emotes
        time := now }

/-- `TwitchClient.parseIrc(raw)`: the decoded message, or `null` (`none`) when the `try`
block raised. -/
def parseIrc (raw : Str) (now : Nat) : Option ChatMessage :=
  match parseIrcBody raw now with
  | .ok m => some m
  | .error _ => none

/-- The first-party placeholder built in `processMessageHtml` for emote `id`. -/
def emoteHtml (id : Str) : Str :=
  utf16 "<img class=\"inline-block h-7 align-middle\" src=\"https://static-cdn.jtvnw.net/emoticons/v2/"
    ++ id ++ utf16 "/default/dark/1.0\" alt=\"emote\">"

/-- The third-party placeholder built in `processMessageHtml` for token `word`. -/
def catalogHtml (src word : Str) : Str :=
  utf16 "<img class=\"inline-block h-7 align-middle\" src=\"" ++ src ++ utf16 "\" alt=\""
    ++ word ++ utf16 "\" title=\"" ++ word ++ utf16 "\">"

/-- Opening tag of the highlight marker. -/
def spanOpen : Str := utf16 "<span class=\"bg-yellow-500 text-black px-1 rounded font-bold\">"

/-- Closing tag of the highlight marker. -/
def spanClose : Str := utf16 "</span>"

/-- The replacement function of the escape pass. -/
def escapeChar (c : CodeUnit) : Str :=
  if c = cu '&' then utf16 "&amp;"
  else if c = cu '<' then utf16 "&lt;"
  else if c = cu '>' then utf16 "&gt;"
  else if c = dquote then utf16 "&quot;"
  else if c = squote then utf16 "&#39;"
  else [c]

/-- The escape pass: every `& < > " '` is replaced by its entity. -/
def escapeHtml : Str → Str
  | [] => []
  | c :: cs => escapeChar c ++ escapeHtml cs

/-- The comparator given to `sort` in `processMessageHtml`:
`parseInt(b.split('-')[0]) - parseInt(a.split('-')[0])`. -/
def rangeCmp (a b : Str) : JSNum :=
  jsSub (parseInt ((split b (utf16 "-")).headD (utf16 "undefined")))
    (parseInt ((split a (utf16 "-")).headD (utf16 "undefined")))

/-- One step of `ranges.forEach(range => ...)`: the span `start .. end` of `html` is
replaced by the placeholder of the emote registered under `range`. The keys `range` come
from `Object.keys(twitchEmotes)`, so `twitchEmotes[range]` reads an own property. -/
def applyRange (twitchEmotes : JSObject Str) (html range : Str) : Str :=
  let nums := (split range (utf16 "-")).map toNumber
  let start : JSNum := (nums[0]?).join
  let stop : JSNum := (nums[1]?).join
  let id := (ownGet twitchEmotes range).getD (utf16 "undefined")
  substring html (some 0) start ++ emoteHtml id ++ substringFrom html (stop.map (fun e => e + 1))

/-- The token function of the last pass of `processMessageHtml`. The test
`this.emoteMap[word]` holds for an entry of the catalog and also for a token that names a
member of `Object.prototype`; that member has no `src`, so the template writes
`undefined`. -/
def renderWord (unicodeLower : Str → Str) (emoteMap : JSObject Str) (alertWords : List Str)
    (word : Str) : Str :=
  match objRead emoteMap word with
  | .own src => catalogHtml src word
  | .inherited => catalogHtml (utf16 "undefined") word
  | .missing =>
    if alertWords.any
        (fun w => includes (toLowerCase unicodeLower word) (toLowerCase unicodeLower w)) then
      spanOpen ++ word ++ spanClose
    else word

/-- `TwitchClient.processMessageHtml(text, twitchEmotes, alertWords)`; `emoteMap` is the
third-party catalog `this.emoteMap`, as its entries (emote name to image source; an
entry named `__proto__` is outside the model). -/
def processMessageHtml (unicodeLower : Str → Str) (emoteMap : JSObject Str) (text : Str)
    (twitchEmotes : JSObject Str) (alertWords : List Str) : Str :=
  let html := escapeHtml text
  let ranges := arraySort rangeCmp (objectKeys twitchEmotes)
  let html := ranges.foldl (applyRange twitchEmotes) html
  join (utf16 " ") ((split html (utf16 " ")).map (renderWord unicodeLower emoteMap alertWords))

/-- The positive keywords of `detectSentiment`. -/
def positiveWords : List Str :=
  ["pog", "pogchamp", "love", "hype", "lul", "kek", "ez", "nice", "huge", "king", "goat"].map
    utf16

/-- The negative keywords of `detectSentiment`. -/
def negativeWords : List Str :=
  ["bad", "trash", "l", "toxic", "dogshit", "garbage", "f", "rip", "throw", "cringe"].map utf16

/-- `TwitchClient.detectSentiment(text)`. -/
def detectSentiment (unicodeLower : Str → Str) (text : Str) : Str :=
  let low := toLowerCase unicodeLower text
  if positiveWords.any (fun w => includes low w) then utf16 "positive"
  else if negativeWords.any (fun w => includes low w) then utf16 "negative"
  else utf16 "neutral"

/-- The match of `/room-id=(\d+)/` in `raw`: the digits captured at the leftmost
occurrence of `room-id=` followed by a digit. -/
def matchRoomId : Str → Option Str
  | [] => none
  | c :: cs =>
    let here := (c :: cs).drop 8
    if (utf16 "room-id=").isPrefixOf (c :: cs) && !(here.takeWhile isDecDigit).isEmpty then
      some (here.takeWhile isDecDigit)
    else matchRoomId cs

/-- What the handler `ws.onmessage` does with one frame. -/
inductive WsEffect where
  | send (line : Str)
  | fetchEmotes (cid : Str)
  | onMessage (msg : ChatMessage)
  deriving DecidableEq

/-- The handler `ws.onmessage` installed by `connect`, as the list of its effects. -/
def onmessage (raw : Str) (now : Nat) : List WsEffect :=
  if startsWith raw (utf16 "PING") then [.send (utf16 "PONG :tmi.twitch.tv")]
  else
    (if includes raw (utf16 "ROOMSTATE") then
        match matchRoomId raw with
        | some cid => [.fetchEmotes cid]
        | none => []
      else [])
    ++ (if includes raw (utf16 "PRIVMSG") then
        match parseIrc raw now with
        | some parsed => [.onMessage parsed]
        | none => []
      else [])

/-! ## The message store (src/main.js) -/

/-- A value held by `topChatters`: a number of messages, or, for a user name that names a
member of `Object.prototype`, the string made of the text of that member followed by
`ones` characters `1` (the operator `+` concatenates when its left operand is not a
number). -/
inductive Tally where
  | count (n : Nat)
  | text (member : Str) (ones : Nat)
  deriving DecidableEq

/-- The fields of `store` read or written by `addMessage`; `pings` counts the calls of
`playPing`. -/
structure Store where
  maxMessages : Int
  audioEnabled : Bool
  activeAlerts : List Str
  messages : List ChatMessage
  totalMessages : Nat
  topChatters : JSObject Tally
  pings : Nat

/-- The reset done by `startTracking` before connecting: `messages = []`,
`totalMessages = 0`, `topChatters = {}`. -/
def Store.reset (s : Store) : Store :=
  { s with messages := [], totalMessages := 0, topChatters := [] }

/-- The value `(this.topChatters[name] || 0) + 1`. -/
def nextTally (topChatters : JSObject Tally) (name : Str) : Tally :=
  match objRead topChatters name with
  | .own (.count n) => .count (n + 1)
  | .own (.text member ones) => .text member (ones + 1)
  | .inherited => .text name 1
  | .missing => .count 1

/-- `store.addMessage(msg)`. -/
def addMessage (unicodeLower : Str → Str) (s : Store) (msg : ChatMessage) : Store :=
  let messages := s.messages ++ [msg]
  let totalMessages := s.totalMessages + 1
  let topChatters := objSet s.topChatters msg.username (nextTally s.topChatters msg.username)
  let messages := if (messages.length : Int) > s.maxMessages then messages.drop 1 else messages
  let hasAlert := s.activeAlerts.any
    (fun w => includes (toLowerCase unicodeLower msg.text) (toLowerCase unicodeLower w))
  { s with
    messages := messages
    totalMessages := totalMessages
    topChatters := topChatters
    pings := if hasAlert && s.audioEnabled then s.pings + 1 else s.pings }

/-- The store after the messages `msgs` were delivered one at a time. -/
def addMessages (unicodeLower : Str → Str) (s : Store) (msgs : List ChatMessage) : Store :=
  msgs.foldl (addMessage unicodeLower) s

/-- `formatBody(msg)` of src/main.js: the message is rendered from its decoded `text` and
`emotes` with the active alert keywords. -/
def formatBody (unicodeLower : Str → Str) (emoteMap : JSObject Str) (activeAlerts : List Str)
    (msg : ChatMessage) : Str :=
  processMessageHtml unicodeLower emoteMap msg.text msg.emotes activeAlerts

/-! ## Predicates and reference renderings used in the statements -/

/-- Is `c` one of the markup characters `< > " '`. -/
def isMarkupChar (c : CodeUnit) : Bool :=
  decide (c = cu '<') || decide (c = cu '>') || decide (c = dquote) || decide (c = squote)

/-- Is `c` one of the five characters rewritten by the escape pass. -/
def isSpecialChar (c : CodeUnit) : Bool :=
  decide (c = cu '&') || isMarkupChar c

/-- A first-party range of the `emotes` mapping: the property `start-stop`, both written
in decimal digits, holding the emote id. -/
structure EmoteSpan where
  startDigits : Str
  stopDigits : Str
  id : Str

/-- Is `ds` a non-empty string of decimal digits. -/
def isDecimal (ds : Str) : Bool := !ds.isEmpty && ds.all isDecDigit

/-- First index of the span. -/
def EmoteSpan.start (sp : EmoteSpan) : Nat := decimalValue sp.startDigits

/-- Last index of the span (inclusive). -/
def EmoteSpan.stop (sp : EmoteSpan) : Nat := decimalValue sp.stopDigits

/-- The property key `start-stop` of the span. -/
def EmoteSpan.key (sp : EmoteSpan) : Str := sp.startDigits ++ utf16 "-" ++ sp.stopDigits

/-- The `emotes` mapping holding the given ranges, in the given order of creation. -/
def emotesOf (spans : List EmoteSpan) : JSObject Str := spans.map (fun sp => (sp.key, sp.id))

/-- The span that covers index `i`, if there is one. -/
def coveringSpan (spans : List EmoteSpan) (i : Nat) : Option EmoteSpan :=
  spans.find? (fun sp => decide (sp.start ≤ i) && decide (i ≤ sp.stop))

/-- Reference rendering of the code units `cs` that sit at the indices `i, i + 1, ...` of a
text: the first code unit of a span gives the placeholder of its emote, the other code
units of a span give nothing, and a code unit outside every span gives `outside c`. -/
def renderSpansFrom (outside : CodeUnit → Str) (spans : List EmoteSpan) : Nat → Str → Str
  | _, [] => []
  | i, c :: cs =>
    (match coveringSpan spans i with
      | some sp => if i = sp.start then emoteHtml sp.id else []
      | none => outside c)
      ++ renderSpansFrom outside spans (i + 1) cs

/-- Reference for texts rendered as they are: each span replaced by its placeholder, every
code unit outside the spans unchanged. -/
def replaceSpans (text : Str) (spans : List EmoteSpan) : Str :=
  renderSpansFrom (fun c => [c]) spans 0 text

/-- Reference with escaping: each span of the original text replaced by its placeholder,
the text outside the spans HTML-escaped. -/
def replaceSpansEscaped (text : Str) (spans : List EmoteSpan) : Str :=
  renderSpansFrom escapeChar spans 0 text

/-- The ranges are in bounds for a text of length `len`. -/
def SpansInBounds (len : Nat) (spans : List EmoteSpan) : Prop :=
  ∀ sp ∈ spans, isDecimal sp.startDigits = true ∧ isDecimal sp.stopDigits = true
    ∧ sp.start ≤ sp.stop ∧ sp.stop < len

/-- The ranges are pairwise non-overlapping. -/
def SpansDisjoint (spans : List EmoteSpan) : Prop :=
  spans.Pairwise (fun a b => a.stop < b.start ∨ b.stop < a.start)

/-- One more than the last index covered by a span (0 when there is none). -/
def spansEnd (spans : List EmoteSpan) : Nat :=
  spans.foldr (fun sp acc => max (sp.stop + 1) acc) 0

/-- No space-delimited token of `html` names a member of `Object.prototype`. -/
def NoInheritedToken (html : Str) : Prop :=
  ∀ tok ∈ split html (utf16 " "), objectPrototypeKeys.contains tok = false

/-! ## Theorems -/

/-! ### C1: the decoded text -/

/-- C1 (the code departs from the claim): for the line
`@id=1 :bob!bob@bob.tmi.twitch.tv PRIVMSG #chan :hi`, whose body is `hi`, `parseIrc`
returns the text `bob!bob@bob.tmi.twitch.tv PRIVMSG #chan :hi`: the IRC prefix and the
command are part of the decoded text, which therefore differs from the body. -/
theorem parseIrc_text_keeps_irc_prefix :
    (parseIrc (utf16 "@id=1 :bob!bob@bob.tmi.twitch.tv PRIVMSG #chan :hi") 0).map
        (fun m => m.text)
      = some (utf16 "bob!bob@bob.tmi.twitch.tv PRIVMSG #chan :hi")
    ∧ (parseIrc (utf16 "@id=1 :bob!bob@bob.tmi.twitch.tv PRIVMSG #chan :hi") 0).map
        (fun m => m.text)
      ≠ some (utf16 "hi") := by
  decide

/-! ### C2 and C3: tokens that name a member of `Object.prototype` -/

set_option maxRecDepth 100000 in
/-- C2 (the code departs from the claim): the text `Kappa constructor` holds none of the
five escaped characters and the mapping `0-4` to `25` is in bounds, but with an empty
catalog and no alert keyword the output is not the text with the span replaced: the
token `constructor`, outside the span, is replaced by an image tag with source
`undefined`, because `this.emoteMap[word]` finds the member `constructor` of
`Object.prototype`. -/
theorem processMessageHtml_inherited_token_replaced (unicodeLower : Str → Str) :
    processMessageHtml unicodeLower [] (utf16 "Kappa constructor")
        [(utf16 "0-4", utf16 "25")] []
      = emoteHtml (utf16 "25") ++ utf16 " "
        ++ utf16 "<img class=\"inline-block h-7 align-middle\" src=\"undefined\" alt=\"constructor\" title=\"constructor\">"
    ∧ processMessageHtml unicodeLower [] (utf16 "Kappa constructor")
        [(utf16 "0-4", utf16 "25")] []
      ≠ replaceSpans (utf16 "Kappa constructor") [⟨utf16 "0", utf16 "4", utf16 "25"⟩]
    ∧ replaceSpans (utf16 "Kappa constructor") [⟨utf16 "0", utf16 "4", utf16 "25"⟩]
      = emoteHtml (utf16 "25") ++ utf16 " constructor" :=
  of_decide_eq_true rfl

set_option maxRecDepth 100000 in
/-- C3 (the code departs from the claim): for the text `constructor`, with no first-party
emotes, an empty catalog and the alert keyword `pog`, the output is neither the escaped
text nor the escaped text wrapped in the highlight marker: it is an image tag with
source `undefined`, because `this.emoteMap[word]` finds the member `constructor` of
`Object.prototype`. -/
theorem processMessageHtml_inherited_token_not_sanitized_text (unicodeLower : Str → Str) :
    processMessageHtml unicodeLower [] (utf16 "constructor") [] [utf16 "pog"]
      = utf16 "<img class=\"inline-block h-7 align-middle\" src=\"undefined\" alt=\"constructor\" title=\"constructor\">"
    ∧ processMessageHtml unicodeLower [] (utf16 "constructor") [] [utf16 "pog"]
      ≠ escapeHtml (utf16 "constructor")
    ∧ processMessageHtml unicodeLower [] (utf16 "constructor") [] [utf16 "pog"]
      ≠ spanOpen ++ escapeHtml (utf16 "constructor") ++ spanClose
    ∧ escapeHtml (utf16 "constructor") = utf16 "constructor" :=
  of_decide_eq_true rfl

/-! ### C4: decoding then rendering -/

set_option maxRecDepth 100000 in
/-- C4 (the code departs from the claim): the line
`@badge-info=;emotes=25:0-4;id=1 :bob!bob@bob.tmi.twitch.tv PRIVMSG #chan :Kappa hello`
carries one well-formed range, but decoded and rendered with the alert keyword `emote`
the result holds no complete first-party placeholder: the token pass wraps the token
`alt="emote">...` of the inserted tag in the highlight marker. -/
theorem formatBody_alert_breaks_placeholder (unicodeLower : Str → Str) :
    (parseIrc
        (utf16 "@badge-info=;emotes=25:0-4;id=1 :bob!bob@bob.tmi.twitch.tv PRIVMSG #chan :Kappa hello")
        0).map (formatBody unicodeLower [] [utf16 "emote"])
      = some
        (utf16 "<img class=\"inline-block h-7 align-middle\" src=\"https://static-cdn.jtvnw.net/emoticons/v2/25/default/dark/1.0\" "
          ++ spanOpen ++ utf16 "alt=\"emote\">ob@bob.tmi.twitch.tv" ++ spanClose
          ++ utf16 " PRIVMSG #chan :Kappa hello")
    ∧ (parseIrc
        (utf16 "@badge-info=;emotes=25:0-4;id=1 :bob!bob@bob.tmi.twitch.tv PRIVMSG #chan :Kappa hello")
        0).map
        (fun m => includes (formatBody unicodeLower [] [utf16 "emote"] m) (emoteHtml (utf16 "25")))
      = some false :=
  of_decide_eq_true rfl

/-! ### C6: the tag parser -/

/-- C6 (the code departs from the claim): in the tag block
`id=1;reply-parent-msg-body=2+2=4` the second value is `2+2=4`, but `parseTags` maps the
key to `2+2`: the entry is split on every `=` and only the first two pieces are kept. -/
theorem parseTags_truncates_value_at_second_eq :
    parseTags (utf16 "id=1;reply-parent-msg-body=2+2=4")
      = [(utf16 "id", some (utf16 "1")), (utf16 "reply-parent-msg-body", some (utf16 "2+2"))]
    ∧ metaGet (parseTags (utf16 "id=1;reply-parent-msg-body=2+2=4"))
        (utf16 "reply-parent-msg-body")
      ≠ some (utf16 "2+2=4") := by
  decide

/-! ### C7: the user name -/

/-- C7 (the code departs from the claim): for the line
`@color=#1E90FF;display-name=;emotes=25:0-4;id=1 :bob!bob@bob.tmi.twitch.tv PRIVMSG #chan :Kappa hi`
the `display-name` tag is empty and the login is `bob`, but the decoded `username` is
`0-4;id=1 `, the text between the first two `:` of the line. -/
theorem parseIrc_username_reads_emotes_tag :
    (parseIrc
        (utf16 "@color=#1E90FF;display-name=;emotes=25:0-4;id=1 :bob!bob@bob.tmi.twitch.tv PRIVMSG #chan :Kappa hi")
        0).map (fun m => m.username)
      = some (utf16 "0-4;id=1 ")
    ∧ (parseIrc
        (utf16 "@color=#1E90FF;display-name=;emotes=25:0-4;id=1 :bob!bob@bob.tmi.twitch.tv PRIVMSG #chan :Kappa hi")
        0).map (fun m => m.username)
      ≠ some (utf16 "bob") := by
  decide

/-! ### C9: the sentiment classifier -/

/-- C9 (the claim as stated fails): `hello there` contains the negative keyword `l`, so
`detectSentiment` returns `negative` for it, not `neutral`. -/
theorem detectSentiment_hello_there_not_neutral :
    (∀ unicodeLower : Str → Str,
        detectSentiment unicodeLower (utf16 "hello there") = utf16 "negative")
    ∧ (∀ unicodeLower : Str → Str,
        detectSentiment unicodeLower (utf16 "hello there") ≠ utf16 "neutral") :=
  ⟨fun _ => of_decide_eq_true rfl, fun _ => of_decide_eq_true rfl⟩

/-- C9 (amended): `detectSentiment` returns `positive` for `this is POG`, `negative` for
`total trash` and `negative` for `hello there`; on every text the result is `positive` when
the lower-cased text contains a positive keyword, else `negative` when it contains a
negative keyword, else `neutral`. Lower-casing is that of `String.prototype.toLowerCase`,
whatever the Unicode tables `unicodeLower` are. -/
theorem detectSentiment_classification (unicodeLower : Str → Str) :
    detectSentiment unicodeLower (utf16 "this is POG") = utf16 "positive"
    ∧ detectSentiment unicodeLower (utf16 "total trash") = utf16 "negative"
    ∧ detectSentiment unicodeLower (utf16 "hello there") = utf16 "negative"
    ∧ ∀ text : Str,
        ((∃ w ∈ positiveWords, includes (toLowerCase unicodeLower text) w = true) →
            detectSentiment unicodeLower text = utf16 "positive")
        ∧ ((∀ w ∈ positiveWords, includes (toLowerCase unicodeLower text) w = false) →
            (∃ w ∈ negativeWords, includes (toLowerCase unicodeLower text) w = true) →
            detectSentiment unicodeLower text = utf16 "negative")
        ∧ ((∀ w ∈ positiveWords, includes (toLowerCase unicodeLower text) w = false) →
            (∀ w ∈ negativeWords, includes (toLowerCase unicodeLower text) w = false) →
            detectSentiment unicodeLower text = utf16 "neutral") := by
  refine ⟨of_decide_eq_true rfl, of_decide_eq_true rfl, of_decide_eq_true rfl,
    fun text => ⟨?_, ?_, ?_⟩⟩
  · rintro ⟨w, hw, h⟩
    have hp : positiveWords.any (fun w => includes (toLowerCase unicodeLower text) w) = true :=
      List.any_eq_true.mpr ⟨w, hw, h⟩
    simp only [detectSentiment, hp, if_true]
  · rintro hpos ⟨w, hw, h⟩
    have hp : positiveWords.any (fun w => includes (toLowerCase unicodeLower text) w) = false := by
      rw [List.any_eq_false]
      intro x hx
      simp [hpos x hx]
    have hn : negativeWords.any (fun w => includes (toLowerCase unicodeLower text) w) = true :=
      List.any_eq_true.mpr ⟨w, hw, h⟩
    simp only [detectSentiment, hp, hn, if_true, Bool.false_eq_true, if_false]
  · intro hpos hneg
    have hp : positiveWords.any (fun w => includes (toLowerCase unicodeLower text) w) = false := by
      rw [List.any_eq_false]
      intro x hx
      simp [hpos x hx]
    have hn : negativeWords.any (fun w => includes (toLowerCase unicodeLower text) w) = false := by
      rw [List.any_eq_false]
      intro x hx
      simp [hneg x hx]
    simp only [detectSentiment, hp, hn, Bool.false_eq_true, if_false]

/-! ### C5: the bounded message sequence -/

theorem addMessages_append (unicodeLower : Str → Str) (s : Store) (msgs : List ChatMessage) (x : ChatMessage) :
    addMessages unicodeLower s (msgs ++ [x]) = addMessage unicodeLower (addMessages unicodeLower s msgs) x := by
  simp [addMessages, List.foldl_append]

theorem addMessage_maxMessages (unicodeLower : Str → Str) (s : Store) (x : ChatMessage) :
    (addMessage unicodeLower s x).maxMessages = s.maxMessages := rfl

theorem addMessage_totalMessages (unicodeLower : Str → Str) (s : Store) (x : ChatMessage) :
    (addMessage unicodeLower s x).totalMessages = s.totalMessages + 1 := rfl

theorem addMessage_messages (unicodeLower : Str → Str) (s : Store) (x : ChatMessage) :
    (addMessage unicodeLower s x).messages =
      if ((s.messages ++ [x]).length : Int) > s.maxMessages then (s.messages ++ [x]).drop 1
      else s.messages ++ [x] := rfl

/-- State of the store after the arrivals `msgs`, from a store whose sequence is empty. -/
theorem addMessages_from_empty (unicodeLower : Str → Str) (m : Nat) (hm : 1 ≤ m) (s : Store)
    (hmax : s.maxMessages = (m : Int)) (hmsgs : s.messages = []) (msgs : List ChatMessage) :
    (addMessages unicodeLower s msgs).maxMessages = (m : Int)
    ∧ (addMessages unicodeLower s msgs).messages = msgs.drop (msgs.length - m)
    ∧ (addMessages unicodeLower s msgs).totalMessages = s.totalMessages + msgs.length := by
  induction msgs using List.reverseRecOn with
  | nil => simp [addMessages, hmax, hmsgs]
  | append_singleton msgs x ih =>
    obtain ⟨h1, h2, h3⟩ := ih
    rw [addMessages_append]
    refine ⟨by rw [addMessage_maxMessages, h1], ?_, ?_⟩
    · rw [addMessage_messages, h1, h2]
      by_cases hlt : msgs.length < m
      · have h0 : msgs.length - m = 0 := by omega
        have h0' : (msgs ++ [x]).length - m = 0 := by simp; omega
        rw [h0, h0']
        simp only [List.drop_zero]
        rw [if_neg]
        simp only [List.length_append, List.length_singleton, gt_iff_lt, not_lt]
        omega
      · have hge : m ≤ msgs.length := by omega
        have hlen : (List.drop (msgs.length - m) msgs ++ [x]).length = m + 1 := by
          simp only [List.length_append, List.length_drop, List.length_singleton]
          omega
        rw [if_pos (by rw [hlen]; push_cast; omega)]
        have hle : msgs.length - m ≤ msgs.length := by omega
        have e1 : (msgs ++ [x]).length - m = (msgs.length - m) + 1 := by
          simp only [List.length_append, List.length_singleton]
          omega
        rw [e1, ← List.drop_drop]
        congr 1
        rw [List.drop_append_of_le_length hle]
    · rw [addMessage_totalMessages, h3]
      simp only [List.length_append, List.length_singleton]
      omega

/-- C5: with `maxMessages = m >= 1`, after `n` arrivals delivered one at a time from the
reset state the stored sequence is the last `min n m` arrivals in arrival order,
`totalMessages` is `n`, and after every arrival the stored sequence has at most `m`
entries. -/
theorem addMessage_keeps_last_maxMessages (unicodeLower : Str → Str) (m : Nat) (hm : 1 ≤ m) (s : Store)
    (hmax : s.maxMessages = (m : Int)) (msgs : List ChatMessage) :
    (addMessages unicodeLower s.reset msgs).messages = msgs.drop (msgs.length - min msgs.length m)
    ∧ (addMessages unicodeLower s.reset msgs).messages.length = min msgs.length m
    ∧ (addMessages unicodeLower s.reset msgs).totalMessages = msgs.length
    ∧ ∀ k, (addMessages unicodeLower s.reset (msgs.take k)).messages.length ≤ m := by
  have key := fun l => addMessages_from_empty unicodeLower m hm s.reset hmax rfl l
  have hdrop : msgs.length - min msgs.length m = msgs.length - m := by omega
  refine ⟨?_, ?_, ?_, ?_⟩
  · rw [hdrop]; exact (key msgs).2.1
  · rw [(key msgs).2.1, List.length_drop]; omega
  · rw [(key msgs).2.2]; simp [Store.reset]
  · intro k
    rw [(key (msgs.take k)).2.1, List.length_drop]
    omega

/-- C5, witness of the claim: `maxMessages = 3` and four arrivals leave the last three in
order, with `totalMessages = 4`. -/
theorem addMessage_keeps_last_maxMessages_witness :
    (1 ≤ 3 ∧ (⟨3, false, [], [], 0, [], 0⟩ : Store).maxMessages = ((3 : Nat) : Int))
    ∧ (∀ unicodeLower : Str → Str,
        (addMessages unicodeLower (⟨3, false, [], [], 0, [], 0⟩ : Store).reset
          [⟨none, none, [], [], [], [], 1⟩, ⟨none, none, [], [], [], [], 2⟩,
            ⟨none, none, [], [], [], [], 3⟩, ⟨none, none, [], [], [], [], 4⟩]).messages
        = [⟨none, none, [], [], [], [], 2⟩, ⟨none, none, [], [], [], [], 3⟩,
            ⟨none, none, [], [], [], [], 4⟩])
    ∧ (∀ unicodeLower : Str → Str,
        (addMessages unicodeLower (⟨3, false, [], [], 0, [], 0⟩ : Store).reset
          [⟨none, none, [], [], [], [], 1⟩, ⟨none, none, [], [], [], [], 2⟩,
            ⟨none, none, [], [], [], [], 3⟩, ⟨none, none, [], [], [], [], 4⟩]).totalMessages = 4) :=
  have h := fun unicodeLower : Str → Str =>
    addMessage_keeps_last_maxMessages unicodeLower 3 (by decide) ⟨3, false, [], [], 0, [], 0⟩ rfl
      [⟨none, none, [], [], [], [], 1⟩, ⟨none, none, [], [], [], [], 2⟩,
        ⟨none, none, [], [], [], [], 3⟩, ⟨none, none, [], [], [], [], 4⟩]
  ⟨⟨by decide, rfl⟩, fun u => (h u).1, fun u => (h u).2.2.1⟩

/-! ### Splitting -/

theorem splitGo_of_not_includes (sep : Str) (s : Str) (h : includes s sep = false) :
    splitGo sep 0 s = [s] := by
  induction s with
  | nil => rfl
  | cons c cs ih =>
    simp only [includes, Bool.or_eq_false_iff] at h
    simp only [splitGo, h.1, Bool.false_eq_true, if_false, ih h.2, consHead]

theorem split_of_not_includes (sep : Str) (s : Str) (hsep : sep ≠ [])
    (h : includes s sep = false) : split s sep = [s] := by
  unfold split
  have : sep.isEmpty = false := by
    cases sep with
    | nil => exact absurd rfl hsep
    | cons a l => rfl
  rw [this]
  simpa using splitGo_of_not_includes sep s h

theorem split_single_nil (d : CodeUnit) : split [] [d] = [[]] := rfl

theorem split_single_cons (d c : CodeUnit) (cs : Str) :
    split (c :: cs) [d] = if d = c then [] :: split cs [d] else consHead c (split cs [d]) := by
  by_cases h : d = c
  · subst h
    simp [split, splitGo, List.isPrefixOf]
  · simp [split, splitGo, List.isPrefixOf, h]

theorem split_single_ne_nil (d : CodeUnit) (s : Str) : split s [d] ≠ [] := by
  cases s with
  | nil => simp [split_single_nil]
  | cons c cs =>
    rw [split_single_cons]
    split
    · simp
    · cases split cs [d] <;> simp [consHead]

theorem join_consHead (sep : Str) (c : CodeUnit) (l : List Str) (hl : l ≠ []) :
    join sep (consHead c l) = c :: join sep l := by
  match l, hl with
  | [p], _ => rfl
  | p :: q :: ps, _ => rfl

/-- Joining the pieces of a split on one code unit gives the string back. -/
theorem join_split_single (d : CodeUnit) (s : Str) : join [d] (split s [d]) = s := by
  induction s with
  | nil => rfl
  | cons c cs ih =>
    rw [split_single_cons]
    split
    · rename_i h
      subst h
      obtain ⟨p, ps, hp⟩ := List.exists_cons_of_ne_nil (split_single_ne_nil d cs)
      rw [hp] at ih ⊢
      simp [join, ih]
    · rw [join_consHead _ _ _ (split_single_ne_nil d cs), ih]

/-- A split on one code unit has a second piece exactly when the code unit occurs. -/
theorem split_single_second (d : CodeUnit) (s : Str) :
    (split s [d])[1]? = none ↔ d ∉ s := by
  induction s with
  | nil => simp [split_single_nil]
  | cons c cs ih =>
    rw [split_single_cons]
    obtain ⟨p, ps, hp⟩ := List.exists_cons_of_ne_nil (split_single_ne_nil d cs)
    by_cases h : d = c
    · subst h
      rw [if_pos rfl, hp]
      simp
    · rw [if_neg h, hp]
      rw [hp] at ih
      simp only [consHead, List.mem_cons, not_or]
      have e1 : ((d :: p) :: ps)[1]? = (p :: ps)[1]? := rfl
      have e2 : ((c :: p) :: ps)[1]? = (p :: ps)[1]? := rfl
      rw [e2, ih]
      exact ⟨fun hm => ⟨h, hm⟩, fun hm => hm.2⟩

/-! ### C8: lines without a body separator -/

/-- The keys that `parseIrc` reads in `meta` name no member of `Object.prototype`. -/
theorem meta_keys_not_inherited :
    ∀ k ∈ ["emotes", "id", "user-id", "display-name", "color"].map utf16,
      objectPrototypeKeys.contains k = false := by
  decide

/-- Decoding the groups of the `emotes` tag raises exactly when a group has no `:`. -/
theorem decodeEmoteGroups_error_iff (groups : List Str) :
    ∀ emotes, decodeEmoteGroups groups emotes = .error .typeError ↔ ∃ g ∈ groups, cu ':' ∉ g := by
  induction groups with
  | nil => intro emotes; simp [decodeEmoteGroups]
  | cons e es ih =>
    intro emotes
    have hsep : utf16 ":" = [cu ':'] := rfl
    unfold decodeEmoteGroups
    dsimp only
    rw [hsep]
    cases hp : (split e [cu ':'])[1]? with
    | none =>
      have hno := (split_single_second (cu ':') e).mp hp
      simp only [true_iff]
      exact ⟨e, List.mem_cons_self _ _, hno⟩
    | some pos =>
      have hyes : ¬ cu ':' ∉ e := fun hno => by
        rw [(split_single_second (cu ':') e).mpr hno] at hp
        exact Option.noConfusion hp
      simp only [ih, List.mem_cons, exists_eq_or_imp, hyes, false_or]

/-- For every line, `parseIrc` yields `null` exactly when the `emotes` tag has a non-empty
value one of whose `/`-separated groups has no `:`. -/
theorem parseIrc_eq_none_iff (raw : Str) (now : Nat) :
    parseIrc raw now = none ↔
      ∃ v, metaGet (parseTags ((split raw (utf16 " :")).headD (utf16 "undefined")))
            (utf16 "emotes") = some v
        ∧ v ≠ [] ∧ ∃ g ∈ split v (utf16 "/"), cu ':' ∉ g := by
  have h1 : parseIrc raw now = none ↔
      decodeEmotes (parseTags ((split raw (utf16 " :")).headD (utf16 "undefined")))
        = .error .typeError := by
    unfold parseIrc parseIrcBody
    dsimp only
    cases decodeEmotes (parseTags ((split raw (utf16 " :")).headD (utf16 "undefined"))) with
    | error e => cases e; simp
    | ok em => simp
  rw [h1]
  unfold decodeEmotes
  cases hm : metaGet (parseTags ((split raw (utf16 " :")).headD (utf16 "undefined")))
      (utf16 "emotes") with
  | none => simp
  | some v =>
    cases v with
    | nil => simp
    | cons a as =>
      simp only [List.isEmpty_cons, Bool.false_eq_true, if_false, decodeEmoteGroups_error_iff,
        Option.some.injEq, ne_eq, exists_eq_left', List.cons_ne_nil, not_false_eq_true, true_and,
        reduceCtorEq]

/-- C8 (the claim as stated fails): the line `@id=1 PRIVMSG #chan hello` contains
`PRIVMSG` and no ` :`, yet `parseIrc` returns a message (with empty text and user name
`Unknown`), and the handler delivers it to `onMessage`. -/
theorem parseIrc_no_separator_not_null :
    parseIrc (utf16 "@id=1 PRIVMSG #chan hello") 0
      = some ⟨none, none, utf16 "Unknown", utf16 "#9147ff", [], [], 0⟩
    ∧ onmessage (utf16 "@id=1 PRIVMSG #chan hello") 0
      = [.onMessage ⟨none, none, utf16 "Unknown", utf16 "#9147ff", [], [], 0⟩] := by
  decide

/-- C8 (amended): a raw line with no ` :` does not make `parseIrc` fail: unless the
`emotes` tag raises, `parseIrc` returns a message whose text is empty, and the handler
delivers it when the line contains `PRIVMSG` (and does not start with `PING`). For every
raw line `parseIrc` yields `null` exactly when the `emotes` tag has a non-empty value one
of whose `/`-separated groups has no `:` (as for `id=1;emotes=25 PRIVMSG #chan hello`);
being a total function it never propagates an exception. -/
theorem parseIrc_without_separator (raw : Str) (now : Nat)
    (h : includes raw (utf16 " :") = false) :
    ((¬ ∃ v, metaGet (parseTags raw) (utf16 "emotes") = some v
          ∧ v ≠ [] ∧ ∃ g ∈ split v (utf16 "/"), cu ':' ∉ g) →
        ∃ m, parseIrc raw now = some m ∧ m.text = []
          ∧ (startsWith raw (utf16 "PING") = false → includes raw (utf16 "PRIVMSG") = true →
              onmessage raw now = [.onMessage m]
                ∨ ∃ cid, onmessage raw now = [.fetchEmotes cid, .onMessage m]))
    ∧ (∀ line : Str, parseIrc line now = none ↔
        ∃ v, metaGet (parseTags ((split line (utf16 " :")).headD (utf16 "undefined")))
              (utf16 "emotes") = some v
          ∧ v ≠ [] ∧ ∃ g ∈ split v (utf16 "/"), cu ':' ∉ g)
    ∧ parseIrc (utf16 "id=1;emotes=25 PRIVMSG #chan hello") now = none := by
  refine ⟨?_, fun line => parseIrc_eq_none_iff line now, rfl⟩
  intro hok
  have hs : split raw (utf16 " :") = [raw] := split_of_not_includes _ raw (by decide) h
  have hne : parseIrc raw now ≠ none := by
    rw [Ne, parseIrc_eq_none_iff, hs]
    exact hok
  obtain ⟨m, hm⟩ := Option.ne_none_iff_exists'.mp hne
  have htext : m.text = [] := by
    unfold parseIrc parseIrcBody at hm
    dsimp only at hm
    rw [hs] at hm
    cases hd : decodeEmotes (parseTags ([raw].headD (utf16 "undefined"))) with
    | error e => rw [hd] at hm; exact Option.noConfusion hm
    | ok em =>
      rw [hd] at hm
      have := Option.some.inj hm
      rw [← this]
      rfl
  refine ⟨m, hm, htext, ?_⟩
  intro hping hpriv
  unfold onmessage
  rw [hping, hpriv, hm]
  simp only [Bool.false_eq_true, if_false, if_true]
  by_cases hr : includes raw (utf16 "ROOMSTATE") = true
  · rw [if_pos hr]
    cases matchRoomId raw with
    | none => left; rfl
    | some cid => right; exact ⟨cid, rfl⟩
  · rw [if_neg hr]
    left; rfl

/-- C8, witness: the line `@id=1 PRIVMSG #chan hello` has no ` :`. -/
theorem parseIrc_without_separator_witness :
    includes (utf16 "@id=1 PRIVMSG #chan hello") (utf16 " :") = false
    ∧ (((¬ ∃ v, metaGet (parseTags (utf16 "@id=1 PRIVMSG #chan hello")) (utf16 "emotes") = some v
          ∧ v ≠ [] ∧ ∃ g ∈ split v (utf16 "/"), cu ':' ∉ g) →
        ∃ m, parseIrc (utf16 "@id=1 PRIVMSG #chan hello") 0 = some m ∧ m.text = []
          ∧ (startsWith (utf16 "@id=1 PRIVMSG #chan hello") (utf16 "PING") = false →
              includes (utf16 "@id=1 PRIVMSG #chan hello") (utf16 "PRIVMSG") = true →
              onmessage (utf16 "@id=1 PRIVMSG #chan hello") 0 = [.onMessage m]
                ∨ ∃ cid, onmessage (utf16 "@id=1 PRIVMSG #chan hello") 0
                    = [.fetchEmotes cid, .onMessage m]))
      ∧ (∀ line : Str, parseIrc line 0 = none ↔
        ∃ v, metaGet (parseTags ((split line (utf16 " :")).headD (utf16 "undefined")))
              (utf16 "emotes") = some v
          ∧ v ≠ [] ∧ ∃ g ∈ split v (utf16 "/"), cu ':' ∉ g)
      ∧ parseIrc (utf16 "id=1;emotes=25 PRIVMSG #chan hello") 0 = none) :=
  ⟨by decide, parseIrc_without_separator (utf16 "@id=1 PRIVMSG #chan hello") 0 (by decide)⟩

/-! ### The escape pass -/

theorem escapeHtml_append (a b : Str) : escapeHtml (a ++ b) = escapeHtml a ++ escapeHtml b := by
  induction a with
  | nil => rfl
  | cons c cs ih => simp [escapeHtml, ih]

theorem escapeChar_of_not_special (c : CodeUnit) (h : isSpecialChar c = false) :
    escapeChar c = [c] := by
  simp only [isSpecialChar, isMarkupChar, Bool.or_eq_false_iff, decide_eq_false_iff_not] at h
  obtain ⟨h1, ⟨⟨h2, h3⟩, h4⟩, h5⟩ := h
  simp only [escapeChar, if_neg h1, if_neg h2, if_neg h3, if_neg h4, if_neg h5]

theorem escapeHtml_of_no_special (x : Str) (h : ∀ c ∈ x, isSpecialChar c = false) :
    escapeHtml x = x := by
  induction x with
  | nil => rfl
  | cons c cs ih =>
    simp only [escapeHtml]
    rw [escapeChar_of_not_special c (h c (List.mem_cons_self _ _)),
      ih (fun a ha => h a (List.mem_cons_of_mem _ ha))]
    rfl

theorem foldr_consHead_cons (x p : Str) (ps : List Str) :
    x.foldr consHead (p :: ps) = (x ++ p) :: ps := by
  induction x with
  | nil => rfl
  | cons c cs ih => simp [List.foldr, ih, consHead]

theorem split_single_append (d : CodeUnit) (x s : Str) (hx : ∀ c ∈ x, c ≠ d) :
    split (x ++ s) [d] = x.foldr consHead (split s [d]) := by
  induction x with
  | nil => rfl
  | cons c cs ih =>
    have hc : ¬ d = c := fun h => hx c (List.mem_cons_self _ _) h.symm
    rw [List.cons_append, split_single_cons, if_neg hc,
      ih (fun a ha => hx a (List.mem_cons_of_mem _ ha))]
    rfl

/-! ### Decimal range keys -/

theorem isDecDigit_bounds (c : CodeUnit) (h : isDecDigit c = true) : 48 ≤ c.val ∧ c.val ≤ 57 := by
  simpa [isDecDigit] using h

theorem isDecDigit_ne_of_val (c d : CodeUnit) (h : isDecDigit c = true)
    (hd : d.val < 48 ∨ 57 < d.val) : c ≠ d := by
  intro e
  subst e
  have := isDecDigit_bounds c h
  omega

theorem isWhiteSpace_of_isDecDigit (c : CodeUnit) (h : isDecDigit c = true) :
    isWhiteSpace c = false := by
  have hb := isDecDigit_bounds c h
  simp only [isWhiteSpace, List.contains, List.elem, Bool.or_eq_false_iff, Bool.and_eq_false_iff,
    decide_eq_false_iff_not]
  refine ⟨?_, Or.inl (by omega)⟩
  repeat (first | rfl | (rw [show (c.val == _) = false from by simp; omega]))
  
theorem dropWhile_of_all_false (p : CodeUnit → Bool) (l : Str) (h : ∀ c ∈ l, p c = false) :
    l.dropWhile p = l := by
  cases l with
  | nil => rfl
  | cons a as => simp [List.dropWhile, h a (List.mem_cons_self _ _)]

theorem isDecimal_iff (ds : Str) :
    isDecimal ds = true ↔ ds ≠ [] ∧ ∀ c ∈ ds, isDecDigit c = true := by
  cases ds <;> simp [isDecimal]

theorem trim_of_isDecimal (ds : Str) (h : isDecimal ds = true) : trim ds = ds := by
  obtain ⟨_, hd⟩ := (isDecimal_iff ds).mp h
  unfold trim
  rw [dropWhile_of_all_false _ ds (fun c hc => isWhiteSpace_of_isDecDigit c (hd c hc)),
    dropWhile_of_all_false _ ds.reverse
      (fun c hc => isWhiteSpace_of_isDecDigit c (hd c (List.mem_reverse.mp hc))),
    List.reverse_reverse]

theorem head?_ne_of_isDecimal (ds : Str) (h : isDecimal ds = true) (d : CodeUnit)
    (hd : d.val < 48 ∨ 57 < d.val) : ds.head? ≠ some d := by
  obtain ⟨_, hall⟩ := (isDecimal_iff ds).mp h
  cases ds with
  | nil => simp
  | cons a as =>
    simp only [List.head?_cons, ne_eq, Option.some.injEq]
    exact isDecDigit_ne_of_val a d (hall a (List.mem_cons_self _ _)) hd

/-- `Number` reads a string of decimal digits as its value. -/
theorem toNumber_of_isDecimal (ds : Str) (h : isDecimal ds = true) :
    toNumber ds = some (decimalValue ds : Int) := by
  obtain ⟨hne, hall⟩ := (isDecimal_iff ds).mp h
  have h1 : ds.isEmpty = false := by cases ds <;> simp_all
  have h2 : ds.all isDecDigit = true := List.all_eq_true.mpr hall
  unfold toNumber
  simp only [trim_of_isDecimal ds h, h1, Bool.false_eq_true, if_false,
    head?_ne_of_isDecimal ds h (cu '-') (by decide), head?_ne_of_isDecimal ds h (cu '+') (by decide), h2,
    if_true]

theorem parseIntUnsigned_of_isDecimal (ds : Str) (h : isDecimal ds = true) :
    parseIntUnsigned ds = some (decimalValue ds) := by
  obtain ⟨hne, hall⟩ := (isDecimal_iff ds).mp h
  have hx : ¬ (ds.take 2 = [(cu '0'), (cu 'x')] ∨ ds.take 2 = [(cu '0'), (cu 'X')]) := by
    rintro (e | e)
    · have hm : (cu 'x') ∈ ds := List.mem_of_mem_take (by rw [e]; simp)
      exact isDecDigit_ne_of_val _ (cu 'x') (hall _ hm) (by decide) rfl
    · have hm : (cu 'X') ∈ ds := List.mem_of_mem_take (by rw [e]; simp)
      exact isDecDigit_ne_of_val _ (cu 'X') (hall _ hm) (by decide) rfl
  have ht : ds.takeWhile isDecDigit = ds := List.takeWhile_eq_self_iff.mpr hall
  have h1 : ds.isEmpty = false := by cases ds <;> simp_all
  unfold parseIntUnsigned
  simp only [if_neg hx, ht, h1, Bool.false_eq_true, if_false]

/-- `parseInt` reads a string of decimal digits as its value. -/
theorem parseInt_of_isDecimal (ds : Str) (h : isDecimal ds = true) :
    parseInt ds = some (decimalValue ds : Int) := by
  obtain ⟨_, hall⟩ := (isDecimal_iff ds).mp h
  unfold parseInt
  simp only [dropWhile_of_all_false _ ds (fun c hc => isWhiteSpace_of_isDecDigit c (hall c hc)),
    head?_ne_of_isDecimal ds h (cu '-') (by decide), head?_ne_of_isDecimal ds h (cu '+') (by decide),
    if_false, parseIntUnsigned_of_isDecimal ds h, Option.map_some', Int.ofNat_eq_coe]

theorem split_single_of_not_mem (d : CodeUnit) (s : Str) (h : ∀ c ∈ s, c ≠ d) :
    split s [d] = [s] := by
  have := split_single_append d s [] h
  rw [List.append_nil, split_single_nil, foldr_consHead_cons, List.append_nil] at this
  exact this

/-- A range key splits into its two digit strings. -/
theorem split_key (sp : EmoteSpan) (hs : isDecimal sp.startDigits = true)
    (he : isDecimal sp.stopDigits = true) :
    split sp.key (utf16 "-") = [sp.startDigits, sp.stopDigits] := by
  have h1 : ∀ c ∈ sp.startDigits, c ≠ (cu '-') := fun c hc =>
    isDecDigit_ne_of_val c (cu '-') (((isDecimal_iff _).mp hs).2 c hc) (by decide)
  have h2 : ∀ c ∈ sp.stopDigits, c ≠ (cu '-') := fun c hc =>
    isDecDigit_ne_of_val c (cu '-') (((isDecimal_iff _).mp he).2 c hc) (by decide)
  have hd : (utf16 "-") = [(cu '-')] := rfl
  have hk : sp.key = sp.startDigits ++ ((cu '-') :: sp.stopDigits) := by
    simp [EmoteSpan.key, hd]
  rw [hk, hd, split_single_append _ _ _ h1, split_single_cons, if_pos rfl,
    split_single_of_not_mem _ _ h2, foldr_consHead_cons, List.append_nil]

theorem key_not_arrayIndex (sp : EmoteSpan) : isArrayIndex sp.key = false := by
  have hd : (utf16 "-") = [(cu '-')] := rfl
  have hm : (cu '-') ∈ sp.key := by simp [EmoteSpan.key, hd]
  have : sp.key.all isDecDigit = false := by
    rw [List.all_eq_false]
    exact ⟨(cu '-'), hm, by decide⟩
  simp [isArrayIndex, this]

theorem objectKeys_emotesOf (spans : List EmoteSpan) :
    objectKeys (emotesOf spans) = spans.map EmoteSpan.key := by
  have hmap : (emotesOf spans).map Prod.fst = spans.map EmoteSpan.key := by
    simp [emotesOf, List.map_map, Function.comp_def]
  have h1 : (spans.map EmoteSpan.key).filter isArrayIndex = [] := by
    rw [List.filter_eq_nil_iff]
    intro k hk
    obtain ⟨sp, _, rfl⟩ := List.mem_map.mp hk
    simp [key_not_arrayIndex]
  have h2 : (spans.map EmoteSpan.key).filter (fun k => !isArrayIndex k) = spans.map EmoteSpan.key := by
    rw [List.filter_eq_self]
    intro k hk
    obtain ⟨sp, _, rfl⟩ := List.mem_map.mp hk
    simp [key_not_arrayIndex]
  unfold objectKeys
  simp only [hmap, h1, h2, List.insertionSort, List.nil_append]

theorem key_eq_imp (a b : EmoteSpan) (ha1 : isDecimal a.startDigits = true)
    (ha2 : isDecimal a.stopDigits = true) (hb1 : isDecimal b.startDigits = true)
    (hb2 : isDecimal b.stopDigits = true) (h : a.key = b.key) :
    a.start = b.start ∧ a.stop = b.stop := by
  have e1 := split_key a ha1 ha2
  rw [h, split_key b hb1 hb2] at e1
  simp only [List.cons.injEq, and_true] at e1
  simp [EmoteSpan.start, EmoteSpan.stop, e1.1, e1.2]

/-- Reading the mapping at the key of one of its ranges gives the id of that range. -/
theorem ownGet_emotesOf (len : Nat) (spans : List EmoteSpan) (hb : SpansInBounds len spans)
    (hd : SpansDisjoint spans) (sp : EmoteSpan) (hsp : sp ∈ spans) :
    ownGet (emotesOf spans) sp.key = some sp.id := by
  induction spans with
  | nil => simp at hsp
  | cons x xs ih =>
    have hx := hb x (List.mem_cons_self _ _)
    have hs := hb sp hsp
    simp only [emotesOf, List.map_cons, ownGet]
    rcases List.mem_cons.mp hsp with e | hmem
    · subst e
      simp
    · have hne : ¬ x.key = sp.key := by
        intro hk
        have hk' := key_eq_imp x sp hx.1 hx.2.1 hs.1 hs.2.1 hk
        have hrel := List.rel_of_pairwise_cons hd hmem
        omega
      rw [if_neg hne]
      exact ih (fun a ha => hb a (List.mem_cons_of_mem _ ha)) (List.Pairwise.of_cons hd) hmem

theorem substring_zero_natCast (h : Str) (n : Nat) :
    substring h (some 0) (some (n : Int)) = h.take n := by
  simp only [substring, clampIndex, Int.toNat_zero, Int.toNat_ofNat, Nat.zero_min,
    Nat.zero_max, List.drop_zero]
  rcases Nat.le_total n h.length with hle | hle
  · rw [Nat.min_eq_left hle]
  · rw [Nat.min_eq_right hle, List.take_length, List.take_of_length_le hle]

theorem substringFrom_natCast_succ (h : Str) (n : Nat) :
    substringFrom h ((some (n : Int)).map (fun e => e + 1)) = h.drop (n + 1) := by
  have e : ((n : Int) + 1).toNat = n + 1 := by omega
  simp only [substringFrom, clampIndex, Option.map_some', e]
  rcases Nat.le_total (n + 1) h.length with hle | hle
  · rw [Nat.min_eq_left hle]
  · rw [Nat.min_eq_right hle, List.drop_length, List.drop_of_length_le hle]

/-- One step of the range pass, on the key of a well-formed range. -/
theorem applyRange_key (len : Nat) (spans : List EmoteSpan) (hb : SpansInBounds len spans)
    (hd : SpansDisjoint spans) (sp : EmoteSpan) (hsp : sp ∈ spans) (html : Str) :
    applyRange (emotesOf spans) html sp.key
      = html.take sp.start ++ emoteHtml sp.id ++ html.drop (sp.stop + 1) := by
  have hs := hb sp hsp
  unfold applyRange
  simp only [split_key sp hs.1 hs.2.1, List.map_cons, List.map_nil,
    toNumber_of_isDecimal _ hs.1, toNumber_of_isDecimal _ hs.2.1,
    ownGet_emotesOf len spans hb hd sp hsp, Option.getD_some]
  have e0 : ([some (decimalValue sp.startDigits : Int), some (decimalValue sp.stopDigits : Int)][0]?).join
      = some (sp.start : Int) := rfl
  have e1 : ([some (decimalValue sp.startDigits : Int), some (decimalValue sp.stopDigits : Int)][1]?).join
      = some (sp.stop : Int) := rfl
  rw [e0, e1, substring_zero_natCast, substringFrom_natCast_succ]

theorem rangeCmp_key (a b : EmoteSpan) (ha1 : isDecimal a.startDigits = true)
    (ha2 : isDecimal a.stopDigits = true) (hb1 : isDecimal b.startDigits = true)
    (hb2 : isDecimal b.stopDigits = true) :
    rangeCmp a.key b.key = some ((b.start : Int) - (a.start : Int)) := by
  unfold rangeCmp
  rw [split_key a ha1 ha2, split_key b hb1 hb2]
  simp only [List.headD_cons, parseInt_of_isDecimal _ ha1, parseInt_of_isDecimal _ hb1, jsSub]
  rfl

/-- The sorted key array of the range pass: the keys in descending order of start. -/
theorem arraySort_keys (len : Nat) (spans : List EmoteSpan) (hb : SpansInBounds len spans) :
    arraySort rangeCmp (objectKeys (emotesOf spans))
      = (spans.insertionSort (fun a b => b.start ≤ a.start)).map EmoteSpan.key := by
  rw [objectKeys_emotesOf]
  unfold arraySort
  symm
  apply List.map_insertionSort
  intro a ha b hb'
  have h1 := hb a ha
  have h2 := hb b hb'
  rw [rangeCmp_key a b h1.1 h1.2.1 h2.1 h2.2.1]
  simp only [cmpPositive, decide_eq_false_iff_not]
  omega

/-! ### The reference rendering -/

theorem renderSpansFrom_append (outside : CodeUnit → Str) (S : List EmoteSpan) (x y : Str) :
    ∀ i, renderSpansFrom outside S i (x ++ y)
      = renderSpansFrom outside S i x ++ renderSpansFrom outside S (i + x.length) y := by
  induction x with
  | nil => intro i; simp [renderSpansFrom]
  | cons c cs ih =>
    intro i
    have e : i + 1 + cs.length = i + (cs.length + 1) := by omega
    have step : renderSpansFrom outside S i (c :: (cs ++ y))
        = (match coveringSpan S i with
            | some sp => if i = sp.start then emoteHtml sp.id else []
            | none => outside c) ++ renderSpansFrom outside S (i + 1) (cs ++ y) := rfl
    rw [List.cons_append, step, ih (i + 1), e, List.length_cons, ← List.append_assoc]
    rfl

theorem renderSpansFrom_congr_spans (outside : CodeUnit → Str) (S T : List EmoteSpan) (x : Str) :
    ∀ i, (∀ j, i ≤ j → j < i + x.length → coveringSpan S j = coveringSpan T j) →
      renderSpansFrom outside S i x = renderSpansFrom outside T i x := by
  induction x with
  | nil => intro i _; rfl
  | cons c cs ih =>
    intro i h
    simp only [renderSpansFrom]
    rw [h i (Nat.le_refl _) (by simp), ih (i + 1) (fun j h1 h2 => h j (by omega) (by simp; omega))]

theorem renderSpansFrom_congr_outside (f g : CodeUnit → Str) (S : List EmoteSpan) (x : Str)
    (hfg : ∀ c ∈ x, f c = g c) :
    ∀ i, renderSpansFrom f S i x = renderSpansFrom g S i x := by
  induction x with
  | nil => intro i; rfl
  | cons c cs ih =>
    intro i
    simp only [renderSpansFrom]
    rw [hfg c (List.mem_cons_self _ _), ih (fun a ha => hfg a (List.mem_cons_of_mem _ ha)) (i + 1)]

theorem renderSpansFrom_nil_plain (x : Str) :
    ∀ i, renderSpansFrom (fun c => [c]) [] i x = x := by
  induction x with
  | nil => intro i; rfl
  | cons c cs ih => intro i; simp [renderSpansFrom, coveringSpan, ih (i + 1)]

theorem renderSpansFrom_nil_escape (x : Str) :
    ∀ i, renderSpansFrom escapeChar [] i x = escapeHtml x := by
  induction x with
  | nil => intro i; rfl
  | cons c cs ih => intro i; simp [renderSpansFrom, coveringSpan, ih (i + 1), escapeHtml]

theorem coveringSpan_eq_none (S : List EmoteSpan) (j : Nat)
    (h : ∀ sp ∈ S, j < sp.start ∨ sp.stop < j) : coveringSpan S j = none := by
  unfold coveringSpan
  rw [List.find?_eq_none]
  intro sp hsp
  have := h sp hsp
  simp only [Bool.and_eq_true, decide_eq_true_eq, not_and, not_le]
  omega

theorem coveringSpan_cons_of_lt (r : EmoteSpan) (rs : List EmoteSpan) (j : Nat)
    (h : j < r.start ∨ r.stop < j) : coveringSpan (r :: rs) j = coveringSpan rs j := by
  unfold coveringSpan
  rw [List.find?_cons_of_neg]
  simp only [Bool.and_eq_true, decide_eq_true_eq, not_and, not_le]
  omega

theorem coveringSpan_cons_of_mem (r : EmoteSpan) (rs : List EmoteSpan) (j : Nat)
    (h1 : r.start ≤ j) (h2 : j ≤ r.stop) : coveringSpan (r :: rs) j = some r := by
  unfold coveringSpan
  rw [List.find?_cons_of_pos]
  simp [h1, h2]

/-- Code units strictly inside a span, after its first one, render to nothing. -/
theorem renderSpansFrom_inside (outside : CodeUnit → Str) (S : List EmoteSpan) (r : EmoteSpan)
    (x : Str) :
    ∀ i, r.start < i → (∀ j, i ≤ j → j < i + x.length → coveringSpan S j = some r) →
      renderSpansFrom outside S i x = [] := by
  induction x with
  | nil => intro i _ _; rfl
  | cons c cs ih =>
    intro i hi h
    simp only [renderSpansFrom]
    rw [h i (Nat.le_refl _) (by simp),
      ih (i + 1) (by omega) (fun j h1 h2 => h j (by omega) (by simp; omega))]
    simp only [List.append_nil]
    rw [if_neg (by omega)]

/-- Code units outside every span render through `outside`. -/
theorem renderSpansFrom_outside (outside : CodeUnit → Str) (S : List EmoteSpan) (x : Str) (i : Nat)
    (h : ∀ j, i ≤ j → j < i + x.length → coveringSpan S j = none) :
    renderSpansFrom outside S i x = renderSpansFrom outside [] i x :=
  renderSpansFrom_congr_spans outside S [] x i (fun j h1 h2 => by
    rw [h j h1 h2]; rfl)

/-- The reference rendering of a text whose rightmost span is `r`: the text before `r`
rendered with the other spans, the placeholder of `r`, and the text after `r`. -/
theorem renderSpansFrom_cons_rightmost (r : EmoteSpan) (rs : List EmoteSpan) (pre : Str)
    (hr : r.start ≤ r.stop) (hlen : r.stop < pre.length)
    (hrs : ∀ sp ∈ rs, sp.stop < r.start) :
    renderSpansFrom (fun c => [c]) (r :: rs) 0 pre
      = renderSpansFrom (fun c => [c]) rs 0 (pre.take r.start) ++ emoteHtml r.id
        ++ pre.drop (r.stop + 1) := by
  have hA : (pre.take r.start).length = r.start := by
    rw [List.length_take]; omega
  have hsplit : pre = pre.take r.start
      ++ ((pre.drop r.start).take (r.stop + 1 - r.start) ++ pre.drop (r.stop + 1)) := by
    have h1 : (pre.drop r.start).drop (r.stop + 1 - r.start) = pre.drop (r.stop + 1) := by
      rw [List.drop_drop]
      congr 1
      omega
    rw [← h1, List.take_append_drop, List.take_append_drop]
  have hM : ∃ m ms, (pre.drop r.start).take (r.stop + 1 - r.start) = m :: ms
      ∧ ms.length = r.stop - r.start := by
    have hl : ((pre.drop r.start).take (r.stop + 1 - r.start)).length = r.stop + 1 - r.start := by
      rw [List.length_take, List.length_drop]; omega
    cases hm : (pre.drop r.start).take (r.stop + 1 - r.start) with
    | nil => rw [hm, List.length_nil] at hl; omega
    | cons m ms =>
      rw [hm, List.length_cons] at hl
      exact ⟨m, ms, rfl, by omega⟩
  obtain ⟨m, ms, hm, hms⟩ := hM
  have hZ : ∀ j, r.stop + 1 ≤ j → coveringSpan (r :: rs) j = none := fun j hj =>
    coveringSpan_eq_none _ j (fun sp hsp => by
      rcases List.mem_cons.mp hsp with e | hmem
      · subst e; omega
      · have := hrs sp hmem; omega)
  conv_lhs => rw [hsplit]
  rw [renderSpansFrom_append, renderSpansFrom_append, hA, Nat.zero_add, hm]
  have p1 : renderSpansFrom (fun c => [c]) (r :: rs) 0 (pre.take r.start)
      = renderSpansFrom (fun c => [c]) rs 0 (pre.take r.start) :=
    renderSpansFrom_congr_spans _ _ _ _ 0 (fun j _ h2 => by
      rw [hA] at h2
      exact coveringSpan_cons_of_lt r rs j (Or.inl (by omega)))
  have p2 : renderSpansFrom (fun c => [c]) (r :: rs) r.start (m :: ms) = emoteHtml r.id := by
    simp only [renderSpansFrom]
    rw [coveringSpan_cons_of_mem r rs r.start (Nat.le_refl _) hr,
      renderSpansFrom_inside _ _ r ms (r.start + 1) (by omega) (fun j h1 h2 =>
        coveringSpan_cons_of_mem r rs j (by omega) (by omega))]
    simp
  have p3 : renderSpansFrom (fun c => [c]) (r :: rs) (r.start + (m :: ms).length)
        (pre.drop (r.stop + 1)) = pre.drop (r.stop + 1) := by
    rw [renderSpansFrom_outside _ _ _ _ (fun j h1 _ => hZ j (by
      simp only [List.length_cons] at h1; omega)), renderSpansFrom_nil_plain]
  rw [p1, p2, p3, List.append_assoc]

/-- The range pass on spans listed from right to left: replacing them one after the other
in the string `pre ++ tail`, all of them inside `pre`, gives the reference rendering of
`pre` followed by `tail`. -/
theorem foldl_splice_eq_reference (L : List EmoteSpan) :
    ∀ (pre tail : Str), L.Pairwise (fun a b => b.stop < a.start) →
      (∀ sp ∈ L, sp.start ≤ sp.stop ∧ sp.stop < pre.length) →
      L.foldl (fun h sp => h.take sp.start ++ emoteHtml sp.id ++ h.drop (sp.stop + 1))
          (pre ++ tail)
        = renderSpansFrom (fun c => [c]) L 0 pre ++ tail := by
  induction L with
  | nil =>
    intro pre tail _ _
    simp [renderSpansFrom_nil_plain]
  | cons r rs ih =>
    intro pre tail hpw hb
    have hr := hb r (List.mem_cons_self _ _)
    have hrs : ∀ sp ∈ rs, sp.stop < r.start := fun sp hsp => List.rel_of_pairwise_cons hpw hsp
    have hA : (pre.take r.start).length = r.start := by
      rw [List.length_take]; omega
    have hstep : (pre ++ tail).take r.start ++ emoteHtml r.id ++ (pre ++ tail).drop (r.stop + 1)
        = pre.take r.start ++ (emoteHtml r.id ++ pre.drop (r.stop + 1) ++ tail) := by
      rw [List.take_append_of_le_length (by omega), List.drop_append_of_le_length (by omega)]
      simp only [List.append_assoc]
    rw [List.foldl_cons, hstep,
      ih (pre.take r.start) _ (List.Pairwise.of_cons hpw) (fun sp hsp => by
        rw [hA]
        exact ⟨(hb sp (List.mem_cons_of_mem _ hsp)).1, hrs sp hsp⟩),
      renderSpansFrom_cons_rightmost r rs pre hr.1 hr.2 hrs]
    simp only [List.append_assoc]

/-! ### The range pass against the reference -/

theorem find?_perm_of_unique {α : Type} (p : α → Bool) {l₁ l₂ : List α} (h : l₁.Perm l₂)
    (hu : l₁.Pairwise (fun a b => ¬ (p a = true ∧ p b = true))) :
    l₁.find? p = l₂.find? p := by
  induction h with
  | nil => rfl
  | cons x _ ih =>
    simp only [List.find?_cons]
    rw [ih (List.Pairwise.of_cons hu)]
  | swap x y l =>
    have hxy : ¬ (p y = true ∧ p x = true) :=
      List.rel_of_pairwise_cons hu (List.mem_cons_self _ _)
    simp only [List.find?_cons]
    cases hx : p x <;> cases hy : p y <;> simp_all
  | trans h1 _ ih1 ih2 =>
    rw [ih1 hu]
    exact ih2 ((h1.pairwise_iff (fun hab hba => hab ⟨hba.2, hba.1⟩)).mp hu)

theorem spansDisjoint_perm {S T : List EmoteSpan} (h : S.Perm T) (hd : SpansDisjoint S) :
    SpansDisjoint T :=
  (h.pairwise_iff (fun hab => Or.symm hab)).mp hd

theorem spansInBounds_perm {len : Nat} {S T : List EmoteSpan} (h : S.Perm T)
    (hb : SpansInBounds len S) : SpansInBounds len T :=
  fun sp hsp => hb sp (h.mem_iff.mpr hsp)

/-- The span covering an index does not depend on the order of the ranges. -/
theorem coveringSpan_perm {S T : List EmoteSpan} (h : S.Perm T)
    (hd : SpansDisjoint S) (j : Nat) :
    coveringSpan S j = coveringSpan T j := by
  unfold coveringSpan
  apply find?_perm_of_unique _ h
  refine List.Pairwise.imp ?_ hd
  intro a b hab
  simp only [Bool.and_eq_true, decide_eq_true_eq, not_and, not_le]
  omega

theorem renderSpansFrom_perm (outside : CodeUnit → Str) {S T : List EmoteSpan}
    (h : S.Perm T) (hd : SpansDisjoint S) (x : Str) (i : Nat) :
    renderSpansFrom outside S i x = renderSpansFrom outside T i x :=
  renderSpansFrom_congr_spans outside S T x i (fun j _ _ => coveringSpan_perm h hd j)

/-- The sorted spans of the range pass run from right to left without touching. -/
theorem sorted_spans_pairwise (len : Nat) (spans : List EmoteSpan)
    (hb : SpansInBounds len spans) (hd : SpansDisjoint spans) :
    (spans.insertionSort (fun a b => b.start ≤ a.start)).Pairwise
      (fun a b => b.stop < a.start) := by
  haveI : IsTotal EmoteSpan (fun a b => b.start ≤ a.start) := ⟨fun a b => Nat.le_total _ _⟩
  haveI : IsTrans EmoteSpan (fun a b => b.start ≤ a.start) :=
    ⟨fun a b c hab hbc => Nat.le_trans hbc hab⟩
  have hs : (spans.insertionSort (fun a b => b.start ≤ a.start)).Pairwise
      (fun a b => b.start ≤ a.start) := List.sorted_insertionSort _ spans
  have hp := List.perm_insertionSort (fun a b : EmoteSpan => b.start ≤ a.start) spans
  have hd' := spansDisjoint_perm hp.symm hd
  have hb' : SpansInBounds len _ := spansInBounds_perm hp.symm hb
  refine List.Pairwise.imp_of_mem ?_ (hs.and hd')
  intro a b ha _ hab
  have := hb' a ha
  omega

theorem spansEnd_gt (spans : List EmoteSpan) : ∀ sp ∈ spans, sp.stop < spansEnd spans := by
  induction spans with
  | nil => intro sp h; simp at h
  | cons x xs ih =>
    intro sp hsp
    simp only [spansEnd, List.foldr_cons]
    rcases List.mem_cons.mp hsp with e | hmem
    · subst e; omega
    · have := ih sp hmem
      simp only [spansEnd] at this
      omega

theorem spansEnd_attained (spans : List EmoteSpan) :
    spansEnd spans = 0 ∨ ∃ sp ∈ spans, spansEnd spans = sp.stop + 1 := by
  induction spans with
  | nil => left; rfl
  | cons x xs ih =>
    right
    simp only [spansEnd, List.foldr_cons]
    rcases Nat.le_total (List.foldr (fun sp acc => max (sp.stop + 1) acc) 0 xs) (x.stop + 1)
      with hle | hle
    · exact ⟨x, List.mem_cons_self _ _, by omega⟩
    · rcases ih with h0 | ⟨sp, hsp, he⟩
      · simp only [spansEnd] at h0
        exact ⟨x, List.mem_cons_self _ _, by omega⟩
      · simp only [spansEnd] at he
        exact ⟨sp, List.mem_cons_of_mem _ hsp, by omega⟩




/-! ### The token pass with an empty catalog and no alert keyword -/

theorem renderWord_plain (unicodeLower : Str → Str) (word : Str)
    (h : objectPrototypeKeys.contains word = false) :
    renderWord unicodeLower [] [] word = word := by
  unfold renderWord objRead
  rw [show ownGet ([] : JSObject Str) word = none from rfl]
  dsimp only
  rw [h]
  rfl

theorem tokenPass_plain (unicodeLower : Str → Str) (html : Str) (h : NoInheritedToken html) :
    join (utf16 " ") ((split html (utf16 " ")).map (renderWord unicodeLower [] [])) = html := by
  have hm : (split html (utf16 " ")).map (renderWord unicodeLower [] [])
      = split html (utf16 " ") := by
    conv_rhs => rw [← List.map_id (split html (utf16 " "))]
    exact List.map_congr_left (fun w hw => renderWord_plain unicodeLower w (h w hw))
  rw [hm]
  exact join_split_single (cu ' ') html

/-- The range pass against the reference: when no escaped character occurs in the text
up to the end of the last span, replacing the sorted ranges one after the other in the
escaped text gives the reference rendering with escaping. -/
theorem rangePass_eq_reference (text : Str) (spans : List EmoteSpan)
    (hb : SpansInBounds text.length spans) (hd : SpansDisjoint spans)
    (hpre : ∀ c ∈ text.take (spansEnd spans), isSpecialChar c = false) :
    (arraySort rangeCmp (objectKeys (emotesOf spans))).foldl (applyRange (emotesOf spans))
        (escapeHtml text)
      = replaceSpansEscaped text spans := by
  have hp : (spans.insertionSort (fun a b => b.start ≤ a.start)).Perm spans :=
    List.perm_insertionSort _ spans
  have hbL : SpansInBounds text.length _ := spansInBounds_perm hp.symm hb
  have hfold : ∀ html,
      (arraySort rangeCmp (objectKeys (emotesOf spans))).foldl (applyRange (emotesOf spans)) html
        = (spans.insertionSort (fun a b => b.start ≤ a.start)).foldl
            (fun h sp => h.take sp.start ++ emoteHtml sp.id ++ h.drop (sp.stop + 1)) html := by
    intro html
    rw [arraySort_keys text.length spans hb, List.foldl_map]
    apply List.foldl_ext
    intro h sp hsp
    exact applyRange_key text.length spans hb hd sp (hp.mem_iff.mp hsp) h
  have hbl : spansEnd spans ≤ text.length := by
    rcases spansEnd_attained spans with h0 | ⟨sp, hsp, he⟩
    · omega
    · have := hb sp hsp
      omega
  have hesc : escapeHtml text
      = text.take (spansEnd spans) ++ escapeHtml (text.drop (spansEnd spans)) := by
    conv_lhs => rw [← List.take_append_drop (spansEnd spans) text]
    rw [escapeHtml_append, escapeHtml_of_no_special _ hpre]
  have hlen : (text.take (spansEnd spans)).length = spansEnd spans := by
    rw [List.length_take]; omega
  rw [hfold, hesc,
    foldl_splice_eq_reference _ _ _ (sorted_spans_pairwise text.length spans hb hd)
      (fun sp hsp => by
        rw [hlen]
        exact ⟨(hbL sp hsp).2.2.1, spansEnd_gt spans sp (hp.mem_iff.mp hsp)⟩)]
  unfold replaceSpansEscaped
  conv_rhs => rw [← List.take_append_drop (spansEnd spans) text]
  rw [renderSpansFrom_append, hlen, Nat.zero_add,
    renderSpansFrom_congr_outside escapeChar (fun c => [c]) spans _
      (fun c hc => escapeChar_of_not_special c (hpre c hc)) 0,
    renderSpansFrom_perm _ hp.symm hd,
    renderSpansFrom_outside escapeChar spans _ _ (fun j h1 _ =>
      coveringSpan_eq_none spans j (fun sp hsp => Or.inr (by
        have := spansEnd_gt spans sp hsp
        omega))),
    renderSpansFrom_nil_escape]

theorem not_special_of_all (l : Str) (h : l.all (fun c => !isSpecialChar c) = true) :
    ∀ c ∈ l, isSpecialChar c = false := by
  intro c hc
  have := List.all_eq_true.mp h c hc
  simpa using this

/-! ### C10: escaping before the range pass -/

set_option maxRecDepth 100000 in
/-- C10 (the claim as stated fails): in `a & Kappa` with the range `4-8` no escaped
character lies inside the span, yet the output differs from the reference: the `&` in
front of the span becomes `&amp;` before the range pass, which then cuts at the indices
of the original text. The output is `a &a`, the placeholder, `appa`; the reference is
`a &amp; ` and the placeholder. -/
theorem processMessageHtml_escape_shifts_ranges :
    (SpansInBounds (utf16 "a & Kappa").length [⟨utf16 "4", utf16 "8", utf16 "25"⟩]
      ∧ SpansDisjoint [⟨utf16 "4", utf16 "8", utf16 "25"⟩]
      ∧ ∀ sp ∈ [(⟨utf16 "4", utf16 "8", utf16 "25"⟩ : EmoteSpan)],
          ∀ c ∈ ((utf16 "a & Kappa").drop sp.start).take (sp.stop + 1 - sp.start),
            isSpecialChar c = false)
    ∧ (∀ unicodeLower : Str → Str,
        processMessageHtml unicodeLower [] (utf16 "a & Kappa")
            (emotesOf [⟨utf16 "4", utf16 "8", utf16 "25"⟩]) []
          = utf16 "a &a" ++ emoteHtml (utf16 "25") ++ utf16 "appa")
    ∧ replaceSpansEscaped (utf16 "a & Kappa") [⟨utf16 "4", utf16 "8", utf16 "25"⟩]
        = utf16 "a &amp; " ++ emoteHtml (utf16 "25")
    ∧ (∀ unicodeLower : Str → Str,
        processMessageHtml unicodeLower [] (utf16 "a & Kappa")
            (emotesOf [⟨utf16 "4", utf16 "8", utf16 "25"⟩]) []
          ≠ replaceSpansEscaped (utf16 "a & Kappa") [⟨utf16 "4", utf16 "8", utf16 "25"⟩]) :=
  ⟨⟨by unfold SpansInBounds; decide, by unfold SpansDisjoint; decide, by
      intro sp hsp
      rw [List.mem_singleton] at hsp
      subst hsp
      exact not_special_of_all _ (by decide)⟩,
    fun _ => of_decide_eq_true rfl, by decide, fun _ => of_decide_eq_true rfl⟩

/-- C10 (amended): for in-bounds, pairwise non-overlapping ranges and a text in which
none of `& < > " '` occurs at or before the end of the last span (the escaped characters
all come after every span), `processMessageHtml(text, emotes, [])` with an empty catalog
equals the reference, each span of the original text replaced by its placeholder and the
text outside the spans HTML-escaped, provided no space-delimited token of that result
names a member of `Object.prototype`. -/
theorem processMessageHtml_escape_after_spans (unicodeLower : Str → Str) (text : Str)
    (spans : List EmoteSpan)
    (hb : SpansInBounds text.length spans) (hd : SpansDisjoint spans)
    (hpre : ∀ c ∈ text.take (spansEnd spans), isSpecialChar c = false)
    (htok : NoInheritedToken (replaceSpansEscaped text spans)) :
    processMessageHtml unicodeLower [] text (emotesOf spans) []
      = replaceSpansEscaped text spans := by
  have hdef : processMessageHtml unicodeLower [] text (emotesOf spans) []
      = join (utf16 " ") ((split
          ((arraySort rangeCmp (objectKeys (emotesOf spans))).foldl
            (applyRange (emotesOf spans)) (escapeHtml text)) (utf16 " ")).map
          (renderWord unicodeLower [] [])) := rfl
  rw [hdef, rangePass_eq_reference text spans hb hd hpre, tokenPass_plain unicodeLower _ htok]

set_option maxRecDepth 100000 in
/-- C10, witness: `Kappa <3 & you` with the range `0-4`; the escaped characters follow
the span. -/
theorem processMessageHtml_escape_after_spans_witness :
    (SpansInBounds (utf16 "Kappa <3 & you").length [⟨utf16 "0", utf16 "4", utf16 "25"⟩]
      ∧ SpansDisjoint [⟨utf16 "0", utf16 "4", utf16 "25"⟩]
      ∧ (∀ c ∈ (utf16 "Kappa <3 & you").take (spansEnd [⟨utf16 "0", utf16 "4", utf16 "25"⟩]),
          isSpecialChar c = false)
      ∧ NoInheritedToken
          (replaceSpansEscaped (utf16 "Kappa <3 & you") [⟨utf16 "0", utf16 "4", utf16 "25"⟩]))
    ∧ (∀ unicodeLower : Str → Str,
        processMessageHtml unicodeLower [] (utf16 "Kappa <3 & you")
            (emotesOf [⟨utf16 "0", utf16 "4", utf16 "25"⟩]) []
          = replaceSpansEscaped (utf16 "Kappa <3 & you") [⟨utf16 "0", utf16 "4", utf16 "25"⟩])
    ∧ replaceSpansEscaped (utf16 "Kappa <3 & you") [⟨utf16 "0", utf16 "4", utf16 "25"⟩]
        = emoteHtml (utf16 "25") ++ utf16 " &lt;3 &amp; you" :=
  ⟨⟨by unfold SpansInBounds; decide, by unfold SpansDisjoint; decide,
      not_special_of_all _ (by decide), by unfold NoInheritedToken; decide⟩,
    fun unicodeLower =>
      processMessageHtml_escape_after_spans unicodeLower (utf16 "Kappa <3 & you")
        [⟨utf16 "0", utf16 "4", utf16 "25"⟩] (by unfold SpansInBounds; decide)
        (by unfold SpansDisjoint; decide) (not_special_of_all _ (by decide))
        (by unfold NoInheritedToken; decide),
    by decide⟩

end TwitchChat
